import Mathlib

/-!
# DHT22 single-wire decoder (`src/dht.c`, `src/dht.h`)

A shallow embedding of `dht_read_data` and theorems about it.

## The world outside the function

`dht_read_data` talks to the hardware through ESP-IDF calls that are not part
of the repository.  They are modelled by an event trace: every external call
made by the function is one *event*, events are numbered from `0`, and an
`Env` says what the line level and the microsecond clock are at each event.

* `gpio_get_level` at event `k` returns `env.level k` (`true` = 1, `false` = 0);
* `esp_timer_get_time` at event `k` returns `env.clock k`;
* `gpio_set_direction`, `gpio_set_level`, `vTaskDelay`, `ets_delay_us` return
  nothing the function looks at; each is one event.

The `World` threaded through the code holds the number of the next event and,
as a record of what the code did, the events at which it read the clock.

## Numbers

`uint8_t`, `uint32_t`, `uint64_t` values are naturals reduced with an explicit
`% 2^w`; `int16_t` is an integer wrapped into `[-2^15, 2^15)`; `int` arithmetic
that cannot leave 32 bits is left unreduced.  The two `float` results are kept
symbolic (`F32`): the code only ever forms `n / 10.0f` and a negation.

## Loops

The wait loops have no bound of their own, so the loops take `fuel`; `none`
means the fuel ran out before the loop made up its mind.  Results that say
the call returns are proved for all fuel above a bound.

`main.cpp` carries a stand-in of the same name that fabricates readings; what
follows is about the decoder of `dht.c`.
-/

namespace DHT

/-! ## Values -/

/-- Return code `DHT_OK` of `dht.h`. -/
def DHT_OK : Int := 0

/-- Return code `DHT_ERROR` of `dht.h`. -/
def DHT_ERROR : Int := -1

/-- Conversion to `uint8_t`. -/
def u8 (x : Nat) : Nat := x % 2 ^ 8

/-- Conversion to `uint32_t`. -/
def u32 (x : Nat) : Nat := x % 2 ^ 32

/-- Conversion to `uint64_t`. -/
def u64 (x : Nat) : Nat := x % 2 ^ 64

/-- Conversion to `int16_t`. -/
def i16 (x : Int) : Int := (x + 2 ^ 15) % 2 ^ 16 - 2 ^ 15

/-- Single-precision values, symbolically: what a caller variable held before
the call, the quotient `n / 10.0f` of an integer, or a negation. -/
inductive F32 where
  | held (tag : Nat)
  | div10 (n : Int)
  | neg (x : F32)
deriving DecidableEq, Repr

/-! ## The environment -/

/-- Line level and clock reading at each event. -/
structure Env where
  level : Nat → Bool
  clock : Nat → Nat

/-- State threaded through the call: the number of the next event and the
events at which `esp_timer_get_time` was called so far. -/
structure World where
  tick : Nat
  clockReads : List Nat
deriving DecidableEq, Repr

/-- Any external call whose result is not used: one event. -/
def World.pass (w : World) : World := { w with tick := w.tick + 1 }

/-- World after `esp_timer_get_time()`: one event, recorded as a clock read. -/
def World.readClock (w : World) : World :=
  { tick := w.tick + 1, clockReads := w.clockReads ++ [w.tick] }

/-- Value of `gpio_get_level(gpio_num)` called in world `w`. -/
def gpio_get_level (env : Env) (w : World) : Bool := env.level w.tick

/-- Value of `esp_timer_get_time()` called in world `w`. -/
def esp_timer_get_time (env : Env) (w : World) : Nat := env.clock w.tick

/-! ## Results of the parts of the function -/

/-- How a deadline-bounded polling loop ends. -/
inductive Wait where
  /-- the loop condition became false -/
  | passed (w : World)
  /-- `return DHT_ERROR` from inside the loop -/
  | expired (w : World)
deriving DecidableEq, Repr

/-- How the high-pulse counting loop ends. -/
inductive Pulse where
  /-- the line went low; `high_time` is the count reached -/
  | fell (w : World) (high_time : Nat)
  /-- `high_time > 200`: `return DHT_ERROR` -/
  | capped (w : World)
deriving DecidableEq, Repr

/-- How the part of the call up to the end of the `for` loop ends. -/
inductive Sampled where
  /-- all 40 bits are in `data` -/
  | complete (w : World) (data : List Nat)
  /-- one of the `return DHT_ERROR` statements before the checksum test ran -/
  | failed (w : World)
deriving DecidableEq, Repr

/-- World in which a polling loop ends. -/
def Wait.world : Wait → World
  | .passed w => w
  | .expired w => w

/-- World in which the counting loop ends. -/
def Pulse.world : Pulse → World
  | .fell w _ => w
  | .capped w => w

/-- World in which the sampling part of the call ends. -/
def Sampled.world : Sampled → World
  | .complete w _ => w
  | .failed w => w

/-- What the caller sees after the call: the return value, the contents of
`*temperature` and `*humidity`, and the world. -/
structure Outcome where
  ret : Int
  temperature : F32
  humidity : F32
  world : World
deriving DecidableEq, Repr

/-! ## The code -/

/-- The loop
`while (gpio_get_level(gpio_num) == lvl) if (esp_timer_get_time() > timeout) return DHT_ERROR;`
(`timeout` is `uint64_t`, so the comparison is made in `uint64_t`). -/
def waitWhile (env : Env) (lvl : Bool) (timeout : Nat) : Nat → World → Option Wait
  | 0, _ => none
  | fuel + 1, w =>
    if gpio_get_level env w = lvl then
      if u64 (esp_timer_get_time env w.pass) > timeout then
        some (.expired w.pass.readClock)
      else
        waitWhile env lvl timeout fuel w.pass.readClock
    else
      some (.passed w.pass)

/-- The loop
`while (gpio_get_level(gpio_num) == 1) { ets_delay_us(1); high_time++; if (high_time > 200) return DHT_ERROR; }`
entered with the given `high_time` (`uint32_t`). -/
def countHigh (env : Env) : Nat → World → Nat → Option Pulse
  | 0, _, _ => none
  | fuel + 1, w, high_time =>
    if gpio_get_level env w = true then
      if u32 (high_time + 1) > 200 then
        some (.capped w.pass.pass)
      else
        countHigh env fuel w.pass.pass (u32 (high_time + 1))
    else
      some (.fell w.pass high_time)

/-- The statement `data[i / 8] |= (1 << (7 - (i % 8)));` on the `uint8_t` array. -/
def setBit (data : List Nat) (i : Nat) : List Nat :=
  data.set (i / 8) (u8 (data.getD (i / 8) 0 ||| (1 <<< (7 - i % 8))))

/-- The `for (int i = 0; i < 40; i++)` loop with `n` iterations still to run,
the next one being iteration `i`. -/
def bitLoop (env : Env) (timeout fuel : Nat) : Nat → Nat → World → List Nat → Option Sampled
  | 0, _, w, data => some (.complete w data)
  | n + 1, i, w, data =>
    match waitWhile env false timeout fuel w with
    | none => none
    | some (.expired w1) => some (.failed w1)
    | some (.passed w1) =>
      match countHigh env fuel w1 0 with
      | none => none
      | some (.capped w2) => some (.failed w2)
      | some (.fell w2 high_time) =>
        bitLoop env timeout fuel n (i + 1) w2
          (if high_time > 45 then setBit data i else data)

/-- The three waits for the sensor's response: while high, while low, while high. -/
def handshake (env : Env) (timeout fuel : Nat) (w : World) : Option Wait :=
  match waitWhile env true timeout fuel w with
  | none => none
  | some (.expired w1) => some (.expired w1)
  | some (.passed w1) =>
    match waitWhile env false timeout fuel w1 with
    | none => none
    | some (.expired w2) => some (.expired w2)
    | some (.passed w2) => waitWhile env true timeout fuel w2

/-- World at the first event of the call. -/
def World.init : World := { tick := 0, clockReads := [] }

/-- The value `timeout = esp_timer_get_time() + 300000` computed at event 0. -/
def deadline (env : Env) : Nat := u64 (esp_timer_get_time env World.init + 300000)

/-- World after the start signal: the clock read, then `gpio_set_direction`,
`gpio_set_level(0)`, `vTaskDelay`, `gpio_set_level(1)`, `ets_delay_us(50)`,
`gpio_set_direction`. -/
def afterStart : World := World.init.readClock.pass.pass.pass.pass.pass.pass

/-- The call up to the end of the `for` loop: start signal, handshake, 40 bits. -/
def sampling (env : Env) (fuel : Nat) : Option Sampled :=
  match handshake env (deadline env) fuel afterStart with
  | none => none
  | some (.expired w) => some (.failed w)
  | some (.passed w) => bitLoop env (deadline env) fuel 40 0 w [0, 0, 0, 0, 0]

/-- The checksum test and the conversion, lines 49 to 59 of `dht.c`:
`temperature`, `humidity` are the old contents of the caller's variables. -/
def checkAndDecode (data : List Nat) (temperature humidity : F32) (w : World) : Outcome :=
  let d0 := data.getD 0 0
  let d1 := data.getD 1 0
  let d2 := data.getD 2 0
  let d3 := data.getD 3 0
  let d4 := data.getD 4 0
  if d4 ≠ d0 + d1 + d2 + d3 then
    { ret := DHT_ERROR, temperature := temperature, humidity := humidity, world := w }
  else
    let t : Int := i16 ((((d2 &&& 0x7F) <<< 8) ||| d3 : Nat) : Int)
    { ret := DHT_OK
      temperature := if d2 &&& 0x80 ≠ 0 then F32.neg (F32.div10 t) else F32.div10 t
      humidity := F32.div10 ((((d0 <<< 8) ||| d1 : Nat) : Int))
      world := w }

/-- The function `dht_read_data(gpio_num, temperature, humidity)`; the two
`F32` arguments are what `*temperature` and `*humidity` hold before the call. -/
def dht_read_data (env : Env) (fuel : Nat) (temperature humidity : F32) : Option Outcome :=
  match sampling env fuel with
  | none => none
  | some (.failed w) =>
    some { ret := DHT_ERROR, temperature := temperature, humidity := humidity, world := w }
  | some (.complete w data) => some (checkAndDecode data temperature humidity w)

/-- The buffer with which the call reaches the checksum test, if it does. -/
def sampledBuffer (env : Env) (fuel : Nat) : Option (List Nat) :=
  match sampling env fuel with
  | some (.complete _ data) => some data
  | _ => none

/-- The return value of the call, if it returns. -/
def returned (env : Env) (fuel : Nat) (temperature humidity : F32) : Option Int :=
  (dht_read_data env fuel temperature humidity).map Outcome.ret

/-! ## Line traces

Descriptions of what the line does, event by event, used to say "the sensor
sends these pulses".  A polling loop started at event `k` samples the line at
events `k`, `k + 2`, `k + 4`, ...: between two samples lies one other call
(the clock read in a wait loop, `ets_delay_us(1)` in the counting loop). -/

/-- The line is sampled at level `lvl` by the `l` samples taken from event `k`
on, and at the other level by the next one. -/
def LineRun (env : Env) (lvl : Bool) (k l : Nat) : Prop :=
  (∀ j, j < l → env.level (k + 2 * j) = lvl) ∧ env.level (k + 2 * l) = !lvl

/-- A wait loop started at event `k` finds the line at `lvl` on `l` samples,
the clock read after each of them does not exceed `timeout`, and the next
sample finds the other level. -/
def Polls (env : Env) (lvl : Bool) (timeout k l : Nat) : Prop :=
  LineRun env lvl k l ∧ ∀ j, j < l → u64 (env.clock (k + 2 * j + 1)) ≤ timeout

/-- Event after a loop that started at event `k` and took `l` samples at the
waited level plus the one that ended it. -/
def after (k l : Nat) : Nat := k + 2 * l + 1

/-- The sensor answers the start signal: the three handshake waits end after
`l1`, `l2`, `l3` samples at the waited level, inside the deadline. -/
def Answered (env : Env) (l1 l2 l3 : Nat) : Prop :=
  Polls env true (deadline env) 7 l1 ∧
  Polls env false (deadline env) (after 7 l1) l2 ∧
  Polls env true (deadline env) (after (after 7 l1) l2) l3

/-- Event at which the `for` loop starts after such a handshake. -/
def bitsStart (l1 l2 l3 : Nat) : Nat := after (after (after 7 l1) l2) l3

/-- Event after the pulses `ps`, each a pair (samples low, samples high),
sent from event `k` on. -/
def trainEnd : List (Nat × Nat) → Nat → Nat
  | [], k => k
  | p :: ps, k => trainEnd ps (after (after k p.1) p.2)

/-- From event `k` on the sensor sends the pulses `ps`: for each pair
`(l, n)` the bit's wait loop samples low `l` times inside the deadline, and the
counting loop then samples high exactly `n` times. -/
def PulseTrain (env : Env) (timeout : Nat) : List (Nat × Nat) → Nat → Prop
  | [], _ => True
  | p :: ps, k =>
    Polls env false timeout k p.1 ∧ LineRun env true (after k p.1) p.2 ∧
      PulseTrain env timeout ps (after (after k p.1) p.2)

instance (env : Env) (lvl : Bool) (k l : Nat) : Decidable (LineRun env lvl k l) := by
  unfold LineRun; infer_instance

instance (env : Env) (lvl : Bool) (timeout k l : Nat) : Decidable (Polls env lvl timeout k l) := by
  unfold Polls; infer_instance

instance (env : Env) (l1 l2 l3 : Nat) : Decidable (Answered env l1 l2 l3) := by
  unfold Answered; infer_instance

instance decPulseTrain (env : Env) (timeout : Nat) :
    (ps : List (Nat × Nat)) → (k : Nat) → Decidable (PulseTrain env timeout ps k)
  | [], _ => isTrue trivial
  | p :: ps, k =>
    have := decPulseTrain env timeout ps (after (after k p.1) p.2)
    by unfold PulseTrain; infer_instance

/-- The sensor never completes the handshake: after the start signal the line
stays high for ever, or goes low and stays low for ever, or goes low, then
high, and stays high for ever. -/
def Stalled (env : Env) : Prop :=
  (∀ k, 7 ≤ k → env.level k = true) ∨
  (∃ l1, LineRun env true 7 l1 ∧ ∀ k, after 7 l1 ≤ k → env.level k = false) ∨
  (∃ l1 l2, LineRun env true 7 l1 ∧ LineRun env false (after 7 l1) l2 ∧
    ∀ k, after (after 7 l1) l2 ≤ k → env.level k = true)

/-- The bits classified from the counts `ns`, written from bit `i` on: what
the `for` loop does to the buffer when iteration `i + j` counts `ns[j]`. -/
def packFrom : List Nat → Nat → List Nat → List Nat
  | [], _, data => data
  | n :: ns, i, data => packFrom ns (i + 1) (if n > 45 then setBit data i else data)

/-- A buffer of five `uint8_t`. -/
def Bytes (data : List Nat) : Prop := data.length = 5 ∧ ∀ b, b < 5 → data.getD b 0 < 256

/-- No clock read recorded in `w` lies in the future of `w`. -/
def Fresh (w : World) : Prop := ∀ e, e ∈ w.clockReads → e < w.tick

/-- Every deadline check recorded in `w` (every clock read but the one at
event 0, which computes the deadline) read a value not above `timeout`. -/
def Checked (env : Env) (timeout : Nat) (w : World) : Prop :=
  ∀ e, e ∈ w.clockReads → e ≠ 0 → u64 (env.clock e) ≤ timeout

/-- The last event of `w` is a deadline check that read a value above
`timeout`, and it is the only such check. -/
def Tripped (env : Env) (timeout : Nat) (w : World) : Prop :=
  ∃ rs e, w.clockReads = rs ++ [e] ∧ w.tick = e + 1 ∧ timeout < u64 (env.clock e) ∧
    ∀ x, x ∈ rs → x ≠ 0 → u64 (env.clock x) ≤ timeout

/-- What is known at the end of the part of the call that `Sampled` reports:
a completed buffer is five bytes and every deadline check passed; a failure
either made no failing check (the cap) or has just made the only one. -/
def SampledOk (env : Env) (timeout : Nat) : Sampled → Prop
  | .complete w data => Fresh w ∧ Checked env timeout w ∧ Bytes data
  | .failed w => Fresh w ∧ (Checked env timeout w ∨ Tripped env timeout w)

/-! ## Concrete lines

The lines and clocks of the scenarios of the specification. -/

/-- The level at event `k` of a line that holds each level of `runs` for the
given number of events, and `rest` ever after. -/
def levelOf (rest : Bool) : List (Bool × Nat) → Nat → Bool
  | [], _ => rest
  | r :: rs, k => if k < r.2 then r.1 else levelOf rest rs (k - r.2)

/-- Runs of a line idle (high) during the 7 events of the start signal and
answering with a handshake of `l1`, `l2`, `l3` samples. -/
def handshakeRuns (l1 l2 l3 : Nat) : List (Bool × Nat) :=
  [(true, 7 + 2 * l1), (false, 1 + 2 * l2), (true, 1 + 2 * l3), (false, 1)]

/-- Bit `i` of the frame `bs`, most significant bit of byte 0 first. -/
def frameBit (bs : List Nat) (i : Nat) : Bool := (bs.getD (i / 8) 0).testBit (7 - i % 8)

/-- Samples high in the pulse of a bit: 26 for a 0, 70 for a 1. -/
def highOf (b : Bool) : Nat := if b then 70 else 26

/-- Pulses of the first `n` bits of the frame `bs`, each bit in a slot of 148
events, low for 6 events and then high for `2 * highOf bit + 1`: the wait loop
of a bit samples low 3 times, and 44 times more after a 0. -/
def pulsesOf (bs : List Nat) (n : Nat) : List (Nat × Nat) :=
  (List.range n).map fun i =>
    (if i = 0 ∨ frameBit bs (i - 1) = true then 3 else 47, highOf (frameBit bs i))

/-- Level at event `k` of a line idle during the start signal, answering with
a handshake of 4, 40, 40 samples, and sending the frame `bs` from event 178
on in slots of 148 events (`bitsStart 4 40 40 = 178`). -/
def sensorLevel (bs : List Nat) (k : Nat) : Bool :=
  if k < 178 then levelOf false (handshakeRuns 4 40 40) k
  else
    decide (6 ≤ (k - 178) % 148 ∧
      (k - 178) % 148 ≤ 6 + 2 * highOf (frameBit bs ((k - 178) / 148)))

/-- A sensor that answers the start signal and sends the frame `bs`.  One
microsecond passes per event. -/
def sensorEnv (bs : List Nat) : Env where
  level := sensorLevel bs
  clock := fun k => k

/-- Scenario of the specification: humidity 65.3 %, temperature 23.7 C, that
is 0x028D and 0x00ED, with the checksum byte 0x7C = (0x02+0x8D+0x00+0xED) mod 256. -/
def specEnv : Env := sensorEnv [0x02, 0x8D, 0x00, 0xED, 0x7C]

/-- The same frame with the lowest bit of byte 3 flipped and the checksum byte
left as it was. -/
def flippedEnv : Env := sensorEnv [0x02, 0x8D, 0x00, 0xEC, 0x7C]

/-- A frame the code accepts: humidity 4.0 %, temperature -0.5 C, that is
0x0028 and 0x8005, checksum 0xAD = 0x00+0x28+0x80+0x05. -/
def coldEnv : Env := sensorEnv [0x00, 0x28, 0x80, 0x05, 0xAD]

/-- A correct handshake and the ten bits 0000 0010 10, after which the line goes
low for the wait of bit 10 and then stays high. -/
def frozenEnv : Env where
  level := fun k => if k < 178 + 10 * 148 + 6 then sensorLevel [0x02, 0x80] k else true
  clock := fun k => k

/-- A line that stays high after the start signal (no sensor); 50 ms pass per
event until the clock stops at one second. -/
def stuckEnv : Env where
  level := fun _ => true
  clock := fun k => if k < 20 then 50000 * k else 1000000

/-- A sensor that answers at once (events 7, 8, 9 read low, high, low) and
then holds the line high for ever. -/
def jammedEnv : Env where
  level := fun k => if k < 10 then decide (k % 2 = 0) else true
  clock := fun k => k

@[simp] theorem World.pass_tick (w : World) : w.pass.tick = w.tick + 1 := rfl

@[simp] theorem World.pass_clockReads (w : World) : w.pass.clockReads = w.clockReads := rfl

@[simp] theorem World.readClock_tick (w : World) : w.readClock.tick = w.tick + 1 := rfl

@[simp] theorem World.readClock_clockReads (w : World) :
    w.readClock.clockReads = w.clockReads ++ [w.tick] := rfl

theorem waitWhile_succ (env : Env) (lvl : Bool) (timeout fuel : Nat) (w : World) :
    waitWhile env lvl timeout (fuel + 1) w =
      if env.level w.tick = lvl then
        if u64 (env.clock (w.tick + 1)) > timeout then some (.expired w.pass.readClock)
        else waitWhile env lvl timeout fuel w.pass.readClock
      else some (.passed w.pass) := rfl

theorem countHigh_succ (env : Env) (fuel : Nat) (w : World) (high_time : Nat) :
    countHigh env (fuel + 1) w high_time =
      if env.level w.tick = true then
        if u32 (high_time + 1) > 200 then some (.capped w.pass.pass)
        else countHigh env fuel w.pass.pass (u32 (high_time + 1))
      else some (.fell w.pass high_time) := rfl

/-- A wait loop on a line that behaves as `Polls` describes passes, at the
event `Polls` predicts. -/
theorem waitWhile_of_polls (env : Env) (lvl : Bool) (timeout : Nat) :
    ∀ (l fuel : Nat) (w : World), l < fuel → Polls env lvl timeout w.tick l →
      ∃ w', waitWhile env lvl timeout fuel w = some (.passed w') ∧
        w'.tick = after w.tick l := by
  intro l
  induction l with
  | zero =>
    intro fuel w hf hp
    obtain ⟨fuel, rfl⟩ : ∃ f, fuel = f + 1 := ⟨fuel - 1, by omega⟩
    have h0 : env.level w.tick = !lvl := by simpa using hp.1.2
    refine ⟨w.pass, ?_, by simp [after]⟩
    rw [waitWhile_succ, h0]
    cases lvl <;> simp
  | succ l ih =>
    intro fuel w hf hp
    obtain ⟨fuel, rfl⟩ : ∃ f, fuel = f + 1 := ⟨fuel - 1, by omega⟩
    have h0 : env.level w.tick = lvl := by simpa using hp.1.1 0 (by omega)
    have hc : u64 (env.clock (w.tick + 1)) ≤ timeout := by simpa using hp.2 0 (by omega)
    have hp' : Polls env lvl timeout w.pass.readClock.tick l := by
      refine ⟨⟨fun j hj => ?_, ?_⟩, fun j hj => ?_⟩
      · have := hp.1.1 (j + 1) (by omega)
        simpa [show w.tick + 1 + 1 + 2 * j = w.tick + 2 * (j + 1) by ring] using this
      · have := hp.1.2
        simpa [show w.tick + 1 + 1 + 2 * l = w.tick + 2 * (l + 1) by ring] using this
      · have := hp.2 (j + 1) (by omega)
        simpa [show w.tick + 1 + 1 + 2 * j + 1 = w.tick + 2 * (j + 1) + 1 by ring] using this
    obtain ⟨w', hw, ht⟩ := ih fuel w.pass.readClock (by omega) hp'
    refine ⟨w', ?_, ?_⟩
    · rw [waitWhile_succ, if_pos h0, if_neg (by omega), hw]
    · rw [ht]; simp [after]; ring

/-- The counting loop on a line that is sampled high exactly `n` more times,
with the count staying within the cap, ends with the count raised by `n`;
it reads no clock. -/
theorem countHigh_of_run (env : Env) :
    ∀ (n fuel : Nat) (w : World) (h : Nat), n < fuel → h + n ≤ 200 →
      LineRun env true w.tick n →
      ∃ w', countHigh env fuel w h = some (.fell w' (h + n)) ∧
        w'.tick = after w.tick n ∧ w'.clockReads = w.clockReads := by
  intro n
  induction n with
  | zero =>
    intro fuel w h hf _ hr
    obtain ⟨fuel, rfl⟩ : ∃ f, fuel = f + 1 := ⟨fuel - 1, by omega⟩
    have h0 : env.level w.tick = false := by simpa using hr.2
    exact ⟨w.pass, by rw [countHigh_succ, h0]; simp, by simp [after], by simp⟩
  | succ n ih =>
    intro fuel w h hf hcap hr
    obtain ⟨fuel, rfl⟩ : ∃ f, fuel = f + 1 := ⟨fuel - 1, by omega⟩
    have h0 : env.level w.tick = true := by simpa using hr.1 0 (by omega)
    have hu : u32 (h + 1) = h + 1 := by unfold u32; omega
    have hr' : LineRun env true w.pass.pass.tick n := by
      refine ⟨fun j hj => ?_, ?_⟩
      · have := hr.1 (j + 1) (by omega)
        simpa [show w.tick + 1 + 1 + 2 * j = w.tick + 2 * (j + 1) by ring] using this
      · have := hr.2
        simpa [show w.tick + 1 + 1 + 2 * n = w.tick + 2 * (n + 1) by ring] using this
    obtain ⟨w', hw, ht, hc⟩ := ih fuel w.pass.pass (h + 1) (by omega) (by omega) hr'
    refine ⟨w', ?_, ?_, by simpa using hc⟩
    · rw [countHigh_succ, if_pos h0, hu, if_neg (by omega), hw]
      congr 2; omega
    · rw [ht]; simp [after]; ring

/-- The counting loop on a line sampled high until the count passes 200 returns
the error right after the sample that takes the count to 201; it reads no
clock. -/
theorem countHigh_capped (env : Env) :
    ∀ (m fuel : Nat) (w : World) (h : Nat), m < fuel → h + m = 200 →
      (∀ j, j ≤ m → env.level (w.tick + 2 * j) = true) →
      ∃ w', countHigh env fuel w h = some (.capped w') ∧
        w'.tick = w.tick + 2 * (m + 1) ∧ w'.clockReads = w.clockReads := by
  intro m
  induction m with
  | zero =>
    intro fuel w h hf hh hl
    obtain ⟨fuel, rfl⟩ : ∃ f, fuel = f + 1 := ⟨fuel - 1, by omega⟩
    have h0 : env.level w.tick = true := by simpa using hl 0 (by omega)
    have hu : u32 (h + 1) = h + 1 := by unfold u32; omega
    exact ⟨w.pass.pass, by rw [countHigh_succ, if_pos h0, hu, if_pos (by omega)],
      by simp, by simp⟩
  | succ m ih =>
    intro fuel w h hf hh hl
    obtain ⟨fuel, rfl⟩ : ∃ f, fuel = f + 1 := ⟨fuel - 1, by omega⟩
    have h0 : env.level w.tick = true := by simpa using hl 0 (by omega)
    have hu : u32 (h + 1) = h + 1 := by unfold u32; omega
    have hl' : ∀ j, j ≤ m → env.level (w.pass.pass.tick + 2 * j) = true := by
      intro j hj
      have := hl (j + 1) (by omega)
      simpa [show w.tick + 1 + 1 + 2 * j = w.tick + 2 * (j + 1) by ring] using this
    obtain ⟨w', hw, ht, hc⟩ := ih fuel w.pass.pass (h + 1) (by omega) (by omega) hl'
    refine ⟨w', ?_, ?_, by simpa using hc⟩
    · rw [countHigh_succ, if_pos h0, hu, if_neg (by omega), hw]
    · rw [ht]; simp; ring

/-- Whatever the line does, the counting loop reads no clock, moves forward,
and a count it returns is the entry count plus the samples taken, at most 200
when the entry count is. -/
theorem countHigh_log (env : Env) :
    ∀ (fuel : Nat) (w : World) (h : Nat) (r : Pulse), countHigh env fuel w h = some r →
      h ≤ 200 →
      match r with
      | .fell w' n => w'.clockReads = w.clockReads ∧ w.tick < w'.tick ∧ n ≤ 200
      | .capped w' => w'.clockReads = w.clockReads ∧ w.tick < w'.tick := by
  intro fuel
  induction fuel with
  | zero => intro w h r hr; simp [countHigh] at hr
  | succ fuel ih =>
    intro w h r hr hh
    rw [countHigh_succ] at hr
    have hu : u32 (h + 1) = h + 1 := by unfold u32; omega
    by_cases h0 : env.level w.tick = true
    · rw [if_pos h0, hu] at hr
      by_cases hc : h + 1 > 200
      · rw [if_pos hc] at hr
        cases hr
        simp; omega
      · rw [if_neg hc] at hr
        have := ih w.pass.pass (h + 1) r hr (by omega)
        cases r with
        | fell w' n =>
          simp only [World.pass_clockReads, World.pass_tick] at this
          exact ⟨this.1, by omega, this.2.2⟩
        | capped w' =>
          simp only [World.pass_clockReads, World.pass_tick] at this
          exact ⟨this.1, by omega⟩
    · rw [if_neg h0] at hr
      cases hr
      simp; exact hh

/-- Whatever the line and the clock do, a wait loop that passes has made only
deadline checks that passed, and one that returns the error has just made
the one check that failed. -/
theorem waitWhile_log (env : Env) (lvl : Bool) (timeout : Nat) :
    ∀ (fuel : Nat) (w : World) (r : Wait), waitWhile env lvl timeout fuel w = some r →
      Fresh w → Checked env timeout w →
      match r with
      | .passed w' => Fresh w' ∧ Checked env timeout w' ∧ w.tick < w'.tick
      | .expired w' => Fresh w' ∧ Tripped env timeout w' ∧ w.tick < w'.tick := by
  intro fuel
  induction fuel with
  | zero => intro w r hr; simp [waitWhile] at hr
  | succ fuel ih =>
    intro w r hr hf hck
    rw [waitWhile_succ] at hr
    have hf' : Fresh w.pass.readClock := by
      intro e he
      simp only [World.readClock_clockReads, World.pass_clockReads, World.pass_tick,
        List.mem_append, List.mem_singleton] at he
      simp only [World.readClock_tick, World.pass_tick]
      rcases he with he | he
      · have := hf e he; omega
      · omega
    by_cases h0 : env.level w.tick = lvl
    · rw [if_pos h0] at hr
      by_cases hc : u64 (env.clock (w.tick + 1)) > timeout
      · rw [if_pos hc] at hr
        cases hr
        refine ⟨hf', ⟨w.clockReads, w.tick + 1, by simp, by simp, hc, hck⟩, by simp; omega⟩
      · rw [if_neg hc] at hr
        have hck' : Checked env timeout w.pass.readClock := by
          intro e he hne
          simp only [World.readClock_clockReads, World.pass_clockReads, World.pass_tick,
            List.mem_append, List.mem_singleton] at he
          rcases he with he | he
          · exact hck e he hne
          · subst he; omega
        have := ih w.pass.readClock r hr hf' hck'
        cases r with
        | passed w' =>
          simp only [World.readClock_tick, World.pass_tick] at this
          exact ⟨this.1, this.2.1, by omega⟩
        | expired w' =>
          simp only [World.readClock_tick, World.pass_tick] at this
          exact ⟨this.1, this.2.1, by omega⟩
    · rw [if_neg h0] at hr
      cases hr
      refine ⟨?_, hck, by simp⟩
      intro e he
      have := hf e he
      simp only [World.pass_tick]; simp only [World.pass_clockReads] at he
      have := hf e he; omega

theorem bitLoop_succ (env : Env) (timeout fuel n i : Nat) (w : World) (data : List Nat) :
    bitLoop env timeout fuel (n + 1) i w data =
      match waitWhile env false timeout fuel w with
      | none => none
      | some (.expired w1) => some (.failed w1)
      | some (.passed w1) =>
        match countHigh env fuel w1 0 with
        | none => none
        | some (.capped w2) => some (.failed w2)
        | some (.fell w2 high_time) =>
          bitLoop env timeout fuel n (i + 1) w2
            (if high_time > 45 then setBit data i else data) := rfl

/-- Setting bit `i` keeps the buffer a buffer of five bytes, sets the bit of
position `i` and leaves every other bit of the 40 as it was. -/
theorem setBit_spec (data : List Nat) (i : Nat) (hd : Bytes data) (hi : i < 40) :
    Bytes (setBit data i) ∧
      ∀ pos, pos < 40 →
        ((setBit data i).getD (pos / 8) 0).testBit (7 - pos % 8) =
          (decide (pos = i) || (data.getD (pos / 8) 0).testBit (7 - pos % 8)) := by
  obtain ⟨hlen, hb⟩ := hd
  have hget : ∀ b, (setBit data i).getD b 0 =
      if i / 8 = b then u8 (data.getD (i / 8) 0 ||| (1 <<< (7 - i % 8))) else data.getD b 0 := by
    intro b
    unfold setBit
    simp only [List.getD_eq_getElem?_getD, List.getElem?_set]
    by_cases h : i / 8 = b
    · have : b < data.length := by omega
      simp [h, this]
    · simp [h]
  refine ⟨⟨by simp [setBit, hlen], fun b hb5 => ?_⟩, fun pos hpos => ?_⟩
  · rw [hget]
    split
    · unfold u8; omega
    · exact hb b hb5
  · rw [hget]
    by_cases h : i / 8 = pos / 8
    · rw [if_pos h, u8, Nat.testBit_mod_two_pow, Nat.testBit_or, Nat.one_shiftLeft,
        Nat.testBit_two_pow, h]
      have h7 : decide (7 - pos % 8 < 8) = true := by simp; omega
      rw [h7, Bool.true_and, Bool.or_comm]
      congr 1
      rw [decide_eq_decide]
      omega
    · rw [if_neg h]
      have : decide (pos = i) = false := by
        simp only [decide_eq_false_iff_not]
        intro he; exact h (by rw [he])
      rw [this, Bool.false_or]

/-- A buffer of five bytes stays one through the classification of any counts. -/
theorem packFrom_bytes : ∀ (ns : List Nat) (i : Nat) (data : List Nat),
    Bytes data → i + ns.length ≤ 40 → Bytes (packFrom ns i data) := by
  intro ns
  induction ns with
  | nil => intro i data hd _; exact hd
  | cons n ns ih =>
    intro i data hd hi
    simp only [List.length_cons] at hi
    unfold packFrom
    refine ih (i + 1) _ ?_ (by omega)
    split
    · exact (setBit_spec data i hd (by omega)).1
    · exact hd

/-- Bit by bit, what the classification of the counts `ns` from bit `i` on
leaves in the buffer. -/
theorem packFrom_testBit : ∀ (ns : List Nat) (i : Nat) (data : List Nat),
    Bytes data → i + ns.length ≤ 40 → ∀ pos, pos < 40 →
      ((packFrom ns i data).getD (pos / 8) 0).testBit (7 - pos % 8) =
        ((decide (i ≤ pos ∧ pos < i + ns.length) && decide (ns.getD (pos - i) 0 > 45)) ||
          (data.getD (pos / 8) 0).testBit (7 - pos % 8)) := by
  intro ns
  induction ns with
  | nil =>
    intro i data _ _ pos _
    have : ¬ (i ≤ pos ∧ pos < i + 0) := by omega
    simp [packFrom]
  | cons n ns ih =>
    intro i data hd hi pos hpos
    simp only [List.length_cons] at hi
    unfold packFrom
    have hd' : Bytes (if n > 45 then setBit data i else data) := by
      split
      · exact (setBit_spec data i hd (by omega)).1
      · exact hd
    rw [ih (i + 1) _ hd' (by omega) pos hpos]
    by_cases hlt : pos < i
    · have h1 : ¬ (i + 1 ≤ pos ∧ pos < i + 1 + ns.length) := by omega
      have h2 : ¬ (i ≤ pos ∧ pos < i + (ns.length + 1)) := by omega
      have h3 : pos ≠ i := by omega
      simp only [List.length_cons, h1, h2, decide_False, Bool.false_and, Bool.false_or]
      split
      · rw [(setBit_spec data i hd (by omega)).2 pos hpos]; simp [h3]
      · rfl
    · by_cases heq : pos = i
      · subst heq
        have h1 : ¬ (pos + 1 ≤ pos ∧ pos < pos + 1 + ns.length) := by omega
        simp only [h1, decide_False, Bool.false_and, Bool.false_or, List.length_cons,
          Nat.sub_self, List.getD_cons_zero]
        by_cases hn : n > 45
        · rw [if_pos hn, (setBit_spec data pos hd (by omega)).2 pos hpos]
          simp [hn]
        · rw [if_neg hn]
          simp [hn]
      · have hgt : i + 1 ≤ pos := by omega
        have hsub : pos - i = (pos - (i + 1)) + 1 := by omega
        have hiff : (i + 1 ≤ pos ∧ pos < i + 1 + ns.length) ↔
            (i ≤ pos ∧ pos < i + (ns.length + 1)) := by omega
        rw [hsub, List.getD_cons_succ]
        simp only [List.length_cons, decide_eq_decide.mpr hiff]
        split
        · rw [(setBit_spec data i hd (by omega)).2 pos hpos]; simp [heq]
        · rfl

theorem bitLoop_log (env : Env) (timeout fuel : Nat) :
    ∀ (n i : Nat) (w : World) (data : List Nat) (r : Sampled),
      bitLoop env timeout fuel n i w data = some r → i + n ≤ 40 →
      Fresh w → Checked env timeout w → Bytes data → SampledOk env timeout r := by
  intro n
  induction n with
  | zero =>
    intro i w data r hr _ hf hc hd
    simp only [bitLoop, Option.some.injEq] at hr
    subst hr
    exact ⟨hf, hc, hd⟩
  | succ n ih =>
    intro i w data r hr hi hf hc hd
    rw [bitLoop_succ] at hr
    cases hw : waitWhile env false timeout fuel w with
    | none => simp [hw] at hr
    | some rw1 =>
      have hlog := waitWhile_log env false timeout fuel w rw1 hw hf hc
      cases rw1 with
      | expired w1 =>
        simp only [hw, Option.some.injEq] at hr
        subst hr
        exact ⟨hlog.1, Or.inr hlog.2.1⟩
      | passed w1 =>
        simp only [hw] at hr
        cases hp : countHigh env fuel w1 0 with
        | none => simp [hp] at hr
        | some rp =>
          have hpl := countHigh_log env fuel w1 0 rp hp (by omega)
          cases rp with
          | capped w2 =>
            simp only [hp, Option.some.injEq] at hr
            subst hr
            refine ⟨fun e he => ?_, Or.inl fun e he => ?_⟩
            · have := hlog.1 e (by rw [← hpl.1]; exact he); omega
            · exact hlog.2.1 e (by rw [← hpl.1]; exact he)
          | fell w2 high_time =>
            simp only [hp] at hr
            refine ih (i + 1) w2 _ r hr (by omega) (fun e he => ?_) (fun e he => ?_) ?_
            · have := hlog.1 e (by rw [← hpl.1]; exact he); omega
            · exact hlog.2.1 e (by rw [← hpl.1]; exact he)
            · split
              · exact (setBit_spec data i hd (by omega)).1
              · exact hd

/-- On a line that sends the pulses `ps`, none longer than the cap, the first
`ps.length` iterations of the `for` loop run to their end and leave the
classified counts in the buffer. -/
theorem bitLoop_of_train (env : Env) (timeout fuel : Nat) :
    ∀ (ps : List (Nat × Nat)) (i : Nat) (w : World) (data : List Nat),
      PulseTrain env timeout ps w.tick →
      (∀ p, p ∈ ps → p.1 < fuel ∧ p.2 < fuel ∧ p.2 ≤ 200) →
      ∃ w', w'.tick = trainEnd ps w.tick ∧ ∀ m,
        bitLoop env timeout fuel (ps.length + m) i w data =
          bitLoop env timeout fuel m (i + ps.length) w' (packFrom (ps.map Prod.snd) i data) := by
  intro ps
  induction ps with
  | nil => intro i w data _ _; exact ⟨w, rfl, fun m => by simp [packFrom]⟩
  | cons p ps ih =>
    intro i w data ht hb
    obtain ⟨hpolls, hrun, hrest⟩ := ht
    obtain ⟨hb1, hb2, hb3⟩ := hb p (List.mem_cons_self _ _)
    obtain ⟨w1, hw1, ht1⟩ := waitWhile_of_polls env false timeout p.1 fuel w hb1 hpolls
    obtain ⟨w2, hw2, ht2, _⟩ :=
      countHigh_of_run env p.2 fuel w1 0 hb2 (by omega) (by rw [ht1]; exact hrun)
    obtain ⟨w', hw', heq⟩ := ih (i + 1) w2
      (if p.2 > 45 then setBit data i else data)
      (by rw [ht2, ht1]; exact hrest) (fun q hq => hb q (List.mem_cons_of_mem _ hq))
    refine ⟨w', by rw [hw', ht2, ht1]; rfl, fun m => ?_⟩
    have hlen : (p :: ps).length + m = (ps.length + m) + 1 := by simp; omega
    rw [hlen, bitLoop_succ, hw1]
    simp only [hw2, Nat.zero_add]
    rw [heq m]
    simp only [List.map_cons, List.length_cons, packFrom]
    congr 1; omega

theorem trainEnd_le : ∀ (ps : List (Nat × Nat)) (k : Nat), k ≤ trainEnd ps k := by
  intro ps
  induction ps with
  | nil => intro k; exact Nat.le_refl _
  | cons p ps ih =>
    intro k
    have := ih (after (after k p.1) p.2)
    simp only [trainEnd, after] at this ⊢
    omega

theorem trainEnd_mem : ∀ (ps : List (Nat × Nat)) (k : Nat) (p : Nat × Nat),
    p ∈ ps → k + p.1 + p.2 < trainEnd ps k := by
  intro ps
  induction ps with
  | nil => intro k p hp; simp at hp
  | cons q ps ih =>
    intro k p hp
    rcases List.mem_cons.mp hp with rfl | hp
    · have := trainEnd_le ps (after (after k p.1) p.2)
      simp only [trainEnd, after] at this ⊢
      omega
    · have := ih (after (after k q.1) q.2) p hp
      simp only [trainEnd, after] at this ⊢
      omega

theorem bitsStart_eq (l1 l2 l3 : Nat) : bitsStart l1 l2 l3 = 10 + 2 * l1 + 2 * l2 + 2 * l3 := by
  simp only [bitsStart, after]; omega

theorem afterStart_tick : afterStart.tick = 7 := rfl

theorem afterStart_clockReads : afterStart.clockReads = [0] := rfl

theorem afterStart_fresh : Fresh afterStart := by
  intro e he
  rw [afterStart_clockReads] at he
  rw [afterStart_tick]
  simp at he; omega

theorem afterStart_checked (env : Env) (timeout : Nat) : Checked env timeout afterStart := by
  intro e he hne
  rw [afterStart_clockReads] at he
  simp at he; omega

theorem handshake_log (env : Env) (timeout fuel : Nat) (w : World) (r : Wait)
    (hr : handshake env timeout fuel w = some r) (hf : Fresh w) (hc : Checked env timeout w) :
    match r with
    | .passed w' => Fresh w' ∧ Checked env timeout w' ∧ w.tick < w'.tick
    | .expired w' => Fresh w' ∧ Tripped env timeout w' ∧ w.tick < w'.tick := by
  unfold handshake at hr
  cases h1 : waitWhile env true timeout fuel w with
  | none => simp [h1] at hr
  | some r1 =>
    have l1 := waitWhile_log env true timeout fuel w r1 h1 hf hc
    cases r1 with
    | expired w1 =>
      simp only [h1, Option.some.injEq] at hr
      subst hr; exact l1
    | passed w1 =>
      simp only [h1] at hr
      cases h2 : waitWhile env false timeout fuel w1 with
      | none => simp [h2] at hr
      | some r2 =>
        have l2 := waitWhile_log env false timeout fuel w1 r2 h2 l1.1 l1.2.1
        cases r2 with
        | expired w2 =>
          simp only [h2, Option.some.injEq] at hr
          subst hr; exact ⟨l2.1, l2.2.1, by have := l1.2.2; have := l2.2.2; omega⟩
        | passed w2 =>
          simp only [h2] at hr
          have l3 := waitWhile_log env true timeout fuel w2 r hr l2.1 l2.2.1
          cases r with
          | expired w3 => exact ⟨l3.1, l3.2.1, by have := l1.2.2; have := l2.2.2; have := l3.2.2; omega⟩
          | passed w3 => exact ⟨l3.1, l3.2.1, by have := l1.2.2; have := l2.2.2; have := l3.2.2; omega⟩

/-- A handshake the sensor answers passes, at the event `bitsStart` gives. -/
theorem handshake_of_answered (env : Env) (fuel l1 l2 l3 : Nat)
    (h : Answered env l1 l2 l3) (h1 : l1 < fuel) (h2 : l2 < fuel) (h3 : l3 < fuel) :
    ∃ w', handshake env (deadline env) fuel afterStart = some (.passed w') ∧
      w'.tick = bitsStart l1 l2 l3 := by
  obtain ⟨p1, p2, p3⟩ := h
  obtain ⟨w1, hw1, ht1⟩ := waitWhile_of_polls env true (deadline env) l1 fuel afterStart h1
    (by rw [afterStart_tick]; exact p1)
  rw [afterStart_tick] at ht1
  obtain ⟨w2, hw2, ht2⟩ := waitWhile_of_polls env false (deadline env) l2 fuel w1 h2
    (by rw [ht1]; exact p2)
  obtain ⟨w3, hw3, ht3⟩ := waitWhile_of_polls env true (deadline env) l3 fuel w2 h3
    (by rw [ht2, ht1]; exact p3)
  refine ⟨w3, ?_, by rw [ht3, ht2, ht1]; rfl⟩
  unfold handshake
  simp only [hw1, hw2, hw3]

/-- Every run of the sampling part ends in a state `SampledOk` describes. -/
theorem sampling_log (env : Env) (fuel : Nat) (r : Sampled) (hr : sampling env fuel = some r) :
    SampledOk env (deadline env) r := by
  unfold sampling at hr
  cases hh : handshake env (deadline env) fuel afterStart with
  | none => simp [hh] at hr
  | some rh =>
    have hl := handshake_log env (deadline env) fuel afterStart rh hh afterStart_fresh
      (afterStart_checked env _)
    cases rh with
    | expired w =>
      simp only [hh, Option.some.injEq] at hr
      subst hr
      exact ⟨hl.1, Or.inr hl.2.1⟩
    | passed w =>
      simp only [hh] at hr
      refine bitLoop_log env (deadline env) fuel 40 0 w _ r hr (by omega) hl.1 hl.2.1 ?_
      refine ⟨rfl, fun b hb => ?_⟩
      interval_cases b <;> simp

/-! ## The checksum test and the conversion -/

theorem sampledBuffer_eq (env : Env) (fuel : Nat) (data : List Nat)
    (h : sampledBuffer env fuel = some data) :
    ∃ w, sampling env fuel = some (.complete w data) := by
  unfold sampledBuffer at h
  cases hs : sampling env fuel with
  | none => simp [hs] at h
  | some r =>
    cases r with
    | failed w => simp [hs] at h
    | complete w d =>
      simp only [hs, Option.some.injEq] at h
      exact ⟨w, by rw [h]⟩

theorem dht_read_data_complete (env : Env) (fuel : Nat) (t h : F32) (w : World)
    (data : List Nat) (hs : sampling env fuel = some (.complete w data)) :
    dht_read_data env fuel t h = some (checkAndDecode data t h w) := by
  unfold dht_read_data; rw [hs]

theorem dht_read_data_failed (env : Env) (fuel : Nat) (t h : F32) (w : World)
    (hs : sampling env fuel = some (.failed w)) :
    dht_read_data env fuel t h = some ⟨DHT_ERROR, t, h, w⟩ := by
  unfold dht_read_data; rw [hs]

/-- The bytes of a sampled buffer are below 256. -/
theorem sampled_bytes (env : Env) (fuel : Nat) (w : World) (b0 b1 b2 b3 b4 : Nat)
    (hs : sampling env fuel = some (.complete w [b0, b1, b2, b3, b4])) :
    b0 < 256 ∧ b1 < 256 ∧ b2 < 256 ∧ b3 < 256 ∧ b4 < 256 := by
  have h := (sampling_log env fuel _ hs).2.2.2
  exact ⟨by simpa using h 0 (by omega), by simpa using h 1 (by omega),
    by simpa using h 2 (by omega), by simpa using h 3 (by omega),
    by simpa using h 4 (by omega)⟩

theorem checkAndDecode_mismatch (b0 b1 b2 b3 b4 : Nat) (t h : F32) (w : World)
    (hne : b4 ≠ b0 + b1 + b2 + b3) :
    checkAndDecode [b0, b1, b2, b3, b4] t h w = ⟨DHT_ERROR, t, h, w⟩ := by
  simp [checkAndDecode, hne]

theorem checkAndDecode_match (b0 b1 b2 b3 b4 : Nat) (t h : F32) (w : World)
    (heq : b4 = b0 + b1 + b2 + b3) :
    checkAndDecode [b0, b1, b2, b3, b4] t h w =
      ⟨DHT_OK,
        if b2 &&& 0x80 ≠ 0 then F32.neg (F32.div10 (i16 ((((b2 &&& 0x7F) <<< 8) ||| b3 : Nat) : Int)))
        else F32.div10 (i16 ((((b2 &&& 0x7F) <<< 8) ||| b3 : Nat) : Int)),
        F32.div10 ((((b0 <<< 8) ||| b1 : Nat) : Int)), w⟩ := by
  simp [checkAndDecode, heq]

/-- For a byte `b`, `(a << 8) | b` is `256 * a + b`. -/
theorem shl8_or (a b : Nat) (hb : b < 256) : (a <<< 8) ||| b = 256 * a + b := by
  rw [Nat.shiftLeft_eq, Nat.mul_comm]
  exact (Nat.mul_add_lt_is_or (i := 8) (by simpa using hb) a).symm

/-- The test `b & 0x80` of the code is the test of bit 7. -/
theorem and_0x80_ne_zero (b : Nat) : b &&& 0x80 ≠ 0 ↔ b.testBit 7 = true := by
  constructor
  · intro h
    by_contra hb
    apply h
    apply Nat.eq_of_testBit_eq
    intro i
    rw [Nat.testBit_and, show (0x80 : Nat) = 2 ^ 7 by norm_num, Nat.testBit_two_pow]
    by_cases hi : 7 = i
    · subst hi; simp [hb]
    · simp [hi]
  · intro hb h
    have : (b &&& 0x80).testBit 7 = true := by
      rw [Nat.testBit_and, show (0x80 : Nat) = 2 ^ 7 by norm_num, Nat.testBit_two_pow, hb]
      simp
    rw [h] at this
    simp at this

/-- A value below `2^15` is unchanged by its storage in an `int16_t`. -/
theorem i16_of_lt (x : Nat) (hx : x < 2 ^ 15) : i16 (x : Int) = (x : Int) := by
  unfold i16
  have : ((x : Int) + 2 ^ 15) % 2 ^ 16 = (x : Int) + 2 ^ 15 := by
    apply Int.emod_eq_of_lt <;> omega
  omega

/-- The 15-bit magnitude `((b2 & 0x7F) << 8) | b3` as a number. -/
theorem magnitude_eq (b2 b3 : Nat) (h3 : b3 < 256) :
    ((b2 &&& 0x7F) <<< 8) ||| b3 = 256 * (b2 &&& 0x7F) + b3 ∧
      256 * (b2 &&& 0x7F) + b3 < 2 ^ 15 := by
  have hle : b2 &&& 0x7F ≤ 0x7F := Nat.and_le_right
  exact ⟨shl8_or _ _ h3, by omega⟩

/-- A call that does not return `DHT_OK` returns `DHT_ERROR` and has not written
to the caller's variables. -/
theorem dht_read_data_error (env : Env) (fuel : Nat) (t h : F32)
    (r : Outcome) (hr : dht_read_data env fuel t h = some r) (herr : r.ret ≠ DHT_OK) :
    r.ret = DHT_ERROR ∧ r.temperature = t ∧ r.humidity = h := by
  unfold dht_read_data at hr
  cases hs : sampling env fuel with
  | none => simp [hs] at hr
  | some sr =>
    cases sr with
    | failed w =>
      simp only [hs, Option.some.injEq] at hr
      subst hr
      exact ⟨rfl, rfl, rfl⟩
    | complete w data =>
      simp only [hs, Option.some.injEq] at hr
      subst hr
      unfold checkAndDecode at herr ⊢
      by_cases hne : data.getD 4 0 ≠ data.getD 0 0 + data.getD 1 0 + data.getD 2 0 + data.getD 3 0
      · rw [if_pos hne]
        exact ⟨rfl, rfl, rfl⟩
      · rw [if_neg hne] at herr
        exact absurd rfl herr


/-! ## Claims about the checksum test and the conversion -/

/-- C1, at the scenario the specification gives for it.  The sensor answers the
handshake and sends the frame 0x02 0x8D 0x00 0xED 0x7C (humidity 65.3 %,
temperature 23.7 C), whose last byte is the sum of the first four modulo 256.
The call samples exactly that buffer and returns `DHT_ERROR`: the code
compares the checksum byte with the sum 380 computed in `int`. -/
theorem C1_spec_scenario_rejected :
    Answered specEnv 4 40 40 ∧
    PulseTrain specEnv (deadline specEnv) (pulsesOf [0x02, 0x8D, 0x00, 0xED, 0x7C] 40)
      (bitsStart 4 40 40) ∧
    sampledBuffer specEnv 100 = some [0x02, 0x8D, 0x00, 0xED, 0x7C] ∧
    0x7C = (0x02 + 0x8D + 0x00 + 0xED) % 256 ∧
    returned specEnv 100 (.held 0) (.held 1) = some DHT_ERROR := by
  have ha : Answered specEnv 4 40 40 := by decide!
  have ht : PulseTrain specEnv (deadline specEnv) (pulsesOf [0x02, 0x8D, 0x00, 0xED, 0x7C] 40)
      (bitsStart 4 40 40) := by decide!
  have hs : sampledBuffer specEnv 100 = some [0x02, 0x8D, 0x00, 0xED, 0x7C] := by decide!
  have hr : returned specEnv 100 (.held 0) (.held 1) = some DHT_ERROR := by decide!
  exact ⟨ha, ht, hs, by decide, hr⟩

/-- C2: when the sampled buffer `[h1, h2, t1, t2, c]` has
`c ≠ (h1 + h2 + t1 + t2) mod 256`, the call returns `DHT_ERROR` from the
checksum test and leaves `*temperature` and `*humidity` as they were. -/
theorem C2_checksum_mismatch_fails (env : Env) (fuel h1 h2 t1 t2 c : Nat)
    (temperature humidity : F32)
    (hs : sampledBuffer env fuel = some [h1, h2, t1, t2, c])
    (hc : c ≠ (h1 + h2 + t1 + t2) % 256) :
    ∃ w, sampling env fuel = some (.complete w [h1, h2, t1, t2, c]) ∧
      dht_read_data env fuel temperature humidity =
        some ⟨DHT_ERROR, temperature, humidity, w⟩ := by
  obtain ⟨w, hw⟩ := sampledBuffer_eq env fuel _ hs
  have hb := sampled_bytes env fuel w _ _ _ _ _ hw
  refine ⟨w, hw, ?_⟩
  rw [dht_read_data_complete env fuel _ _ w _ hw, checkAndDecode_mismatch]
  omega

/-- C2 on the frame of the specification's scenario with the lowest bit of
byte 3 flipped (0xED becomes 0xEC) and the checksum byte 0x7C kept. -/
theorem C2_checksum_mismatch_fails_witness :
    sampledBuffer flippedEnv 100 = some [0x02, 0x8D, 0x00, 0xEC, 0x7C] ∧
    0x7C ≠ (0x02 + 0x8D + 0x00 + 0xEC) % 256 ∧
    ∃ w, sampling flippedEnv 100 = some (.complete w [0x02, 0x8D, 0x00, 0xEC, 0x7C]) ∧
      dht_read_data flippedEnv 100 (.held 0) (.held 1) =
        some ⟨DHT_ERROR, .held 0, .held 1, w⟩ := by
  have hs : sampledBuffer flippedEnv 100 = some [0x02, 0x8D, 0x00, 0xEC, 0x7C] := by decide!
  have hc : 0x7C ≠ (0x02 + 0x8D + 0x00 + 0xEC) % 256 := by decide
  exact ⟨hs, hc, C2_checksum_mismatch_fails flippedEnv 100 _ _ _ _ _ (.held 0) (.held 1) hs hc⟩

/-- C3: when the call returns `DHT_OK` with sampled buffer
`[b0, b1, b2, b3, b4]`, the humidity written is `(256 * b0 + b1) / 10.0f`, a
16-bit numerator; the temperature written has the magnitude
`(256 * (b2 & 0x7F) + b3) / 10.0f`, a 15-bit numerator that the `int16_t` holds
unchanged, and is the negation of that quotient exactly when bit 7 of `b2` is
set. -/
theorem C3_decode (env : Env) (fuel b0 b1 b2 b3 b4 : Nat) (temperature humidity : F32)
    (hs : sampledBuffer env fuel = some [b0, b1, b2, b3, b4])
    (hok : returned env fuel temperature humidity = some DHT_OK) :
    ∃ r, dht_read_data env fuel temperature humidity = some r ∧ r.ret = DHT_OK ∧
      r.humidity = F32.div10 ((256 * b0 + b1 : Nat) : Int) ∧
      256 * b0 + b1 < 2 ^ 16 ∧
      256 * (b2 &&& 0x7F) + b3 < 2 ^ 15 ∧
      i16 ((256 * (b2 &&& 0x7F) + b3 : Nat) : Int) = ((256 * (b2 &&& 0x7F) + b3 : Nat) : Int) ∧
      (b2.testBit 7 = true →
        r.temperature = F32.neg (F32.div10 ((256 * (b2 &&& 0x7F) + b3 : Nat) : Int))) ∧
      (b2.testBit 7 = false →
        r.temperature = F32.div10 ((256 * (b2 &&& 0x7F) + b3 : Nat) : Int)) := by
  obtain ⟨w, hw⟩ := sampledBuffer_eq env fuel _ hs
  obtain ⟨h0, h1, h2, h3, h4⟩ := sampled_bytes env fuel w _ _ _ _ _ hw
  have hrd := dht_read_data_complete env fuel temperature humidity w _ hw
  have hsum : b4 = b0 + b1 + b2 + b3 := by
    by_contra hne
    rw [returned, hrd, checkAndDecode_mismatch _ _ _ _ _ _ _ _ hne] at hok
    simp [DHT_OK, DHT_ERROR] at hok
  obtain ⟨hm, hlt⟩ := magnitude_eq b2 b3 h3
  rw [checkAndDecode_match _ _ _ _ _ _ _ _ hsum, hm, shl8_or b0 b1 h1,
    i16_of_lt _ hlt] at hrd
  refine ⟨_, hrd, rfl, rfl, by omega, hlt, i16_of_lt _ hlt, fun hb => ?_, fun hb => ?_⟩
  · simp only
    rw [if_pos ((and_0x80_ne_zero b2).mpr hb)]
  · simp only
    rw [if_neg (fun h => by rw [(and_0x80_ne_zero b2).mp h] at hb; cases hb)]

/-- C3 on a frame the code accepts: 0x00 0x28 0x80 0x05 0xAD, humidity 4.0 %,
temperature -0.5 C. -/
theorem C3_decode_witness :
    sampledBuffer coldEnv 100 = some [0x00, 0x28, 0x80, 0x05, 0xAD] ∧
    returned coldEnv 100 (.held 0) (.held 1) = some DHT_OK ∧
    ∃ r, dht_read_data coldEnv 100 (.held 0) (.held 1) = some r ∧ r.ret = DHT_OK ∧
      r.humidity = F32.div10 ((256 * 0x00 + 0x28 : Nat) : Int) ∧
      256 * 0x00 + 0x28 < 2 ^ 16 ∧
      256 * (0x80 &&& 0x7F) + 0x05 < 2 ^ 15 ∧
      i16 ((256 * (0x80 &&& 0x7F) + 0x05 : Nat) : Int) =
        ((256 * (0x80 &&& 0x7F) + 0x05 : Nat) : Int) ∧
      (Nat.testBit 0x80 7 = true →
        r.temperature = F32.neg (F32.div10 ((256 * (0x80 &&& 0x7F) + 0x05 : Nat) : Int))) ∧
      (Nat.testBit 0x80 7 = false →
        r.temperature = F32.div10 ((256 * (0x80 &&& 0x7F) + 0x05 : Nat) : Int)) :=
  by
  have hs : sampledBuffer coldEnv 100 = some [0x00, 0x28, 0x80, 0x05, 0xAD] := by decide!
  have hok : returned coldEnv 100 (.held 0) (.held 1) = some DHT_OK := by decide!
  exact ⟨hs, hok, C3_decode coldEnv 100 _ _ _ _ _ (.held 0) (.held 1) hs hok⟩

/-- C4: a call that returns anything but `DHT_OK` returns `DHT_ERROR` and
leaves `*temperature` and `*humidity` exactly as they were before the call,
whichever of the `return DHT_ERROR` statements it left through. -/
theorem C4_no_partial_result (env : Env) (fuel : Nat) (temperature humidity : F32)
    (r : Outcome) (hr : dht_read_data env fuel temperature humidity = some r)
    (herr : r.ret ≠ DHT_OK) :
    r.ret = DHT_ERROR ∧ r.temperature = temperature ∧ r.humidity = humidity :=
  dht_read_data_error env fuel temperature humidity r hr herr

/-- C4 on a line that holds the first bit's pulse high: the cap ends the call. -/
theorem C4_no_partial_result_witness :
    dht_read_data jammedEnv 300 (.held 0) (.held 1) =
        some ⟨DHT_ERROR, .held 0, .held 1, ⟨413, [0]⟩⟩ ∧
    DHT_ERROR ≠ DHT_OK ∧
    (Outcome.mk DHT_ERROR (.held 0) (.held 1) ⟨413, [0]⟩).temperature = .held 0 ∧
    (Outcome.mk DHT_ERROR (.held 0) (.held 1) ⟨413, [0]⟩).humidity = .held 1 :=
  by
  have hr : dht_read_data jammedEnv 300 (.held 0) (.held 1) =
      some ⟨DHT_ERROR, .held 0, .held 1, ⟨413, [0]⟩⟩ := by decide!
  have herr : DHT_ERROR ≠ DHT_OK := by decide
  exact ⟨hr, herr, (C4_no_partial_result jammedEnv 300 (.held 0) (.held 1) _ hr herr).2⟩

/-- C10: once the 40 bits are sampled into `[d0, d1, d2, d3, d4]`, the call
returns, and it returns `DHT_OK` exactly when `d4` equals the sum
`d0 + d1 + d2 + d3` taken without reduction modulo 256; so a successful read
has a sum of at most 255, and a buffer whose four data bytes sum to 256 or more
is rejected whatever `d4` is. -/
theorem C10_checksum_in_int (env : Env) (fuel d0 d1 d2 d3 d4 : Nat)
    (temperature humidity : F32)
    (hs : sampledBuffer env fuel = some [d0, d1, d2, d3, d4]) :
    ∃ r, dht_read_data env fuel temperature humidity = some r ∧
      (r.ret = DHT_OK ↔ d4 = d0 + d1 + d2 + d3) ∧
      (r.ret = DHT_OK → d0 + d1 + d2 + d3 ≤ 255) ∧
      (256 ≤ d0 + d1 + d2 + d3 → r.ret = DHT_ERROR) := by
  obtain ⟨w, hw⟩ := sampledBuffer_eq env fuel _ hs
  obtain ⟨h0, h1, h2, h3, h4⟩ := sampled_bytes env fuel w _ _ _ _ _ hw
  refine ⟨_, dht_read_data_complete env fuel temperature humidity w _ hw, ?_⟩
  by_cases heq : d4 = d0 + d1 + d2 + d3
  · rw [checkAndDecode_match _ _ _ _ _ _ _ _ heq]
    refine ⟨⟨fun _ => heq, fun _ => rfl⟩, fun _ => by omega, fun h => by omega⟩
  · rw [checkAndDecode_mismatch _ _ _ _ _ _ _ _ heq]
    refine ⟨⟨fun h => ?_, fun h => absurd h heq⟩, fun h => ?_, fun _ => rfl⟩
    · simp [DHT_OK, DHT_ERROR] at h
    · simp [DHT_OK, DHT_ERROR] at h

/-- C10 on the specification's own frame, whose data bytes sum to 380. -/
theorem C10_checksum_in_int_witness :
    sampledBuffer specEnv 100 = some [0x02, 0x8D, 0x00, 0xED, 0x7C] ∧
    ∃ r, dht_read_data specEnv 100 (.held 0) (.held 1) = some r ∧
      (r.ret = DHT_OK ↔ 0x7C = 0x02 + 0x8D + 0x00 + 0xED) ∧
      (r.ret = DHT_OK → 0x02 + 0x8D + 0x00 + 0xED ≤ 255) ∧
      (256 ≤ 0x02 + 0x8D + 0x00 + 0xED → r.ret = DHT_ERROR) :=
  by
  have hs : sampledBuffer specEnv 100 = some [0x02, 0x8D, 0x00, 0xED, 0x7C] := by decide!
  exact ⟨hs, C10_checksum_in_int specEnv 100 _ _ _ _ _ (.held 0) (.held 1) hs⟩

/-! ## Claims about the bit sampler -/

/-- The sampling part of the call on a line that answers the handshake and
sends 40 pulses within the cap: it completes, with the classified counts in
the buffer. -/
theorem sampling_of_train (env : Env) (l1 l2 l3 : Nat) (ps : List (Nat × Nat))
    (hlen : ps.length = 40) (ha : Answered env l1 l2 l3)
    (ht : PulseTrain env (deadline env) ps (bitsStart l1 l2 l3))
    (hcap : ∀ p, p ∈ ps → p.2 ≤ 200) (fuel : Nat)
    (hfuel : trainEnd ps (bitsStart l1 l2 l3) < fuel) :
    ∃ w, sampling env fuel =
        some (.complete w (packFrom (ps.map Prod.snd) 0 [0, 0, 0, 0, 0])) ∧
      w.tick = trainEnd ps (bitsStart l1 l2 l3) := by
  have hle := trainEnd_le ps (bitsStart l1 l2 l3)
  have hbs := bitsStart_eq l1 l2 l3
  obtain ⟨w0, hw0, ht0⟩ := handshake_of_answered env fuel l1 l2 l3 ha (by omega) (by omega)
    (by omega)
  obtain ⟨w, hw, heq⟩ := bitLoop_of_train env (deadline env) fuel ps 0 w0 [0, 0, 0, 0, 0]
    (by rw [ht0]; exact ht)
    (fun p hp => by
      have := trainEnd_mem ps (bitsStart l1 l2 l3) p hp
      exact ⟨by omega, by omega, hcap p hp⟩)
  refine ⟨w, ?_, by rw [hw, ht0]⟩
  have h40 := heq 0
  rw [Nat.add_zero, hlen] at h40
  unfold sampling
  rw [hw0]
  simp only [h40]
  rfl

/-- C7: when the sensor answers the handshake and sends 40 pulses whose high
phases are sampled `n_0 .. n_39` times, each at most 200, the call samples all
40 bits (given enough fuel), and the buffer it builds is five bytes in which,
for every byte `k` and every `j` in `0..7`, bit `7 - j` of byte `k` is 1 if
`n_(8k+j) > 45` and 0 otherwise.  So each bit depends on its own count only,
a count classified 1 stays 1 when increased and a count classified 0 stays 0
when decreased. -/
theorem C7_bit_sampler (env : Env) (l1 l2 l3 : Nat) (ps : List (Nat × Nat))
    (hlen : ps.length = 40) (ha : Answered env l1 l2 l3)
    (ht : PulseTrain env (deadline env) ps (bitsStart l1 l2 l3))
    (hcap : ∀ p, p ∈ ps → p.2 ≤ 200) :
    ∃ F, ∀ fuel, F ≤ fuel → ∃ w data,
      sampling env fuel = some (.complete w data) ∧
      data.length = 5 ∧ (∀ k, k < 5 → data.getD k 0 < 256) ∧
      (∀ k j, k < 5 → j < 8 →
        (data.getD k 0).testBit (7 - j) = decide ((ps.getD (8 * k + j) (0, 0)).2 > 45)) ∧
      (∀ k j m, k < 5 → j < 8 →
        ((data.getD k 0).testBit (7 - j) = true → (ps.getD (8 * k + j) (0, 0)).2 ≤ m → m > 45) ∧
        ((data.getD k 0).testBit (7 - j) = false → m ≤ (ps.getD (8 * k + j) (0, 0)).2 →
          ¬ m > 45)) := by
  refine ⟨trainEnd ps (bitsStart l1 l2 l3) + 1, fun fuel hfuel => ?_⟩
  obtain ⟨w, hw, _⟩ := sampling_of_train env l1 l2 l3 ps hlen ha ht hcap fuel (by omega)
  have hz : Bytes [0, 0, 0, 0, 0] := ⟨rfl, fun b hb => by interval_cases b <;> simp⟩
  have hlen' : 0 + (ps.map Prod.snd).length ≤ 40 := by simp [hlen]
  have hbytes := packFrom_bytes (ps.map Prod.snd) 0 _ hz hlen'
  have hbit : ∀ k j, k < 5 → j < 8 →
      ((packFrom (ps.map Prod.snd) 0 [0, 0, 0, 0, 0]).getD k 0).testBit (7 - j) =
        decide ((ps.getD (8 * k + j) (0, 0)).2 > 45) := by
    intro k j hk hj
    have h := packFrom_testBit (ps.map Prod.snd) 0 _ hz hlen' (8 * k + j) (by omega)
    have h1 : (8 * k + j) / 8 = k := by omega
    have h2 : (8 * k + j) % 8 = j := by omega
    have h3 : ([0, 0, 0, 0, 0] : List Nat).getD k 0 = 0 := by interval_cases k <;> rfl
    have h4 : (ps.map Prod.snd).getD (8 * k + j) 0 = (ps.getD (8 * k + j) (0, 0)).2 :=
      List.getD_map (l := ps) (d := ((0, 0) : Nat × Nat)) (n := 8 * k + j) Prod.snd
    have h5 : 0 ≤ 8 * k + j ∧ 8 * k + j < 0 + (ps.map Prod.snd).length := by
      simp [hlen]; omega
    rw [h1, h2, h3, Nat.sub_zero, h4] at h
    rw [h, decide_eq_true h5, Bool.true_and, Nat.zero_testBit, Bool.or_false]
  refine ⟨w, _, hw, hbytes.1, hbytes.2, hbit, fun k j m hk hj => ⟨fun h1 h2 => ?_, fun h1 h2 => ?_⟩⟩
  · rw [hbit k j hk hj] at h1
    have := of_decide_eq_true h1
    omega
  · rw [hbit k j hk hj] at h1
    have := of_decide_eq_false h1
    omega

/-- C7 on the frame of the specification's scenario, 0x02 0x8D 0x00 0xED 0x7C,
sent with 26 samples high for a 0 and 70 for a 1. -/
theorem C7_bit_sampler_witness :
    (pulsesOf [0x02, 0x8D, 0x00, 0xED, 0x7C] 40).length = 40 ∧
    Answered specEnv 4 40 40 ∧
    PulseTrain specEnv (deadline specEnv) (pulsesOf [0x02, 0x8D, 0x00, 0xED, 0x7C] 40)
      (bitsStart 4 40 40) ∧
    (∀ p, p ∈ pulsesOf [0x02, 0x8D, 0x00, 0xED, 0x7C] 40 → p.2 ≤ 200) ∧
    ∃ F, ∀ fuel, F ≤ fuel → ∃ w data,
      sampling specEnv fuel = some (.complete w data) ∧
      data.length = 5 ∧ (∀ k, k < 5 → data.getD k 0 < 256) ∧
      (∀ k j, k < 5 → j < 8 →
        (data.getD k 0).testBit (7 - j) =
          decide (((pulsesOf [0x02, 0x8D, 0x00, 0xED, 0x7C] 40).getD (8 * k + j) (0, 0)).2 > 45)) ∧
      (∀ k j m, k < 5 → j < 8 →
        ((data.getD k 0).testBit (7 - j) = true →
          ((pulsesOf [0x02, 0x8D, 0x00, 0xED, 0x7C] 40).getD (8 * k + j) (0, 0)).2 ≤ m → m > 45) ∧
        ((data.getD k 0).testBit (7 - j) = false →
          m ≤ ((pulsesOf [0x02, 0x8D, 0x00, 0xED, 0x7C] 40).getD (8 * k + j) (0, 0)).2 →
          ¬ m > 45)) := by
  have hlen : (pulsesOf [0x02, 0x8D, 0x00, 0xED, 0x7C] 40).length = 40 := by decide!
  have ha : Answered specEnv 4 40 40 := by decide!
  have ht : PulseTrain specEnv (deadline specEnv) (pulsesOf [0x02, 0x8D, 0x00, 0xED, 0x7C] 40)
      (bitsStart 4 40 40) := by decide!
  have hcap : ∀ p, p ∈ pulsesOf [0x02, 0x8D, 0x00, 0xED, 0x7C] 40 → p.2 ≤ 200 := by decide!
  exact ⟨hlen, ha, ht, hcap, C7_bit_sampler specEnv 4 40 40 _ hlen ha ht hcap⟩

/-- C6: let the handshake and the bits `0 .. k-1` complete (`ps` are their
pulses, `k = ps.length < 40`, none above the cap) and let the wait of bit `k`
end after `l` samples, so that the counting loop of bit `k` starts at event
`p`.  If the line then reads high on the 201 samples `p, p+2, .., p+400`, the
call returns `DHT_ERROR` right after the 201st sample and its delay (next
event `p + 402`), having read no clock from event `p` on; nothing is assumed
about the clock after `p`.  If instead the line reads high on `n ≤ 200`
samples and then low, the iteration of bit `k` completes and the cap is not
triggered. -/
theorem C6_per_bit_cap (env : Env) (l1 l2 l3 : Nat) (ps : List (Nat × Nat)) (l : Nat)
    (hk : ps.length < 40) (ha : Answered env l1 l2 l3)
    (ht : PulseTrain env (deadline env) ps (bitsStart l1 l2 l3))
    (hcap : ∀ p, p ∈ ps → p.2 ≤ 200)
    (hl : Polls env false (deadline env) (trainEnd ps (bitsStart l1 l2 l3)) l) :
    ((∀ j, j ≤ 200 →
        env.level (after (trainEnd ps (bitsStart l1 l2 l3)) l + 2 * j) = true) →
      ∃ F, ∀ fuel, F ≤ fuel → ∀ temperature humidity, ∃ w,
        dht_read_data env fuel temperature humidity =
          some ⟨DHT_ERROR, temperature, humidity, w⟩ ∧
        w.tick = after (trainEnd ps (bitsStart l1 l2 l3)) l + 402 ∧
        ∀ e, e ∈ w.clockReads → e < after (trainEnd ps (bitsStart l1 l2 l3)) l) ∧
    (∀ n, n ≤ 200 → LineRun env true (after (trainEnd ps (bitsStart l1 l2 l3)) l) n →
      ∃ F, ∀ fuel, F ≤ fuel → ∃ w0 w data,
        handshake env (deadline env) fuel afterStart = some (.passed w0) ∧
        bitLoop env (deadline env) fuel (ps.length + 1) 0 w0 [0, 0, 0, 0, 0] =
          some (.complete w data) ∧
        w.tick = after (after (trainEnd ps (bitsStart l1 l2 l3)) l) n) := by
  have hle := trainEnd_le ps (bitsStart l1 l2 l3)
  have hbs := bitsStart_eq l1 l2 l3
  -- the common part: handshake, bits `0 .. k-1`, wait of bit `k`
  have common : ∀ fuel, after (trainEnd ps (bitsStart l1 l2 l3)) l < fuel →
      ∃ w0 w' w1, handshake env (deadline env) fuel afterStart = some (.passed w0) ∧
        (∀ m, bitLoop env (deadline env) fuel (ps.length + m) 0 w0 [0, 0, 0, 0, 0] =
          bitLoop env (deadline env) fuel m (0 + ps.length) w'
            (packFrom (ps.map Prod.snd) 0 [0, 0, 0, 0, 0])) ∧
        waitWhile env false (deadline env) fuel w' = some (.passed w1) ∧
        w1.tick = after (trainEnd ps (bitsStart l1 l2 l3)) l ∧ Fresh w1 := by
    intro fuel hfuel
    simp only [after] at hfuel
    obtain ⟨w0, hw0, ht0⟩ := handshake_of_answered env fuel l1 l2 l3 ha (by omega) (by omega)
      (by omega)
    have hlog0 := handshake_log env (deadline env) fuel afterStart _ hw0 afterStart_fresh
      (afterStart_checked env _)
    obtain ⟨w', hw', heq⟩ := bitLoop_of_train env (deadline env) fuel ps 0 w0 [0, 0, 0, 0, 0]
      (by rw [ht0]; exact ht)
      (fun p hp => by
        have := trainEnd_mem ps (bitsStart l1 l2 l3) p hp
        exact ⟨by omega, by omega, hcap p hp⟩)
    have hz : Bytes [0, 0, 0, 0, 0] := ⟨rfl, fun b hb => by interval_cases b <;> simp⟩
    have h0 := heq 0
    rw [Nat.add_zero] at h0
    have hlog' := bitLoop_log env (deadline env) fuel ps.length 0 w0 _ _
      (by rw [h0]; rfl) (by omega) hlog0.1 hlog0.2.1 hz
    obtain ⟨w1, hw1, ht1⟩ := waitWhile_of_polls env false (deadline env) l fuel w' (by omega)
      (by rw [hw', ht0]; exact hl)
    have hlog1 := waitWhile_log env false (deadline env) fuel w' _ hw1 hlog'.1 hlog'.2.1
    exact ⟨w0, w', w1, hw0, heq, hw1, by rw [ht1, hw', ht0], hlog1.1⟩
  constructor
  · intro hhigh
    refine ⟨after (trainEnd ps (bitsStart l1 l2 l3)) l + 403, fun fuel hfuel t h => ?_⟩
    obtain ⟨w0, w', w1, hw0, heq, hw1, ht1, hf1⟩ := common fuel (by omega)
    obtain ⟨w2, hw2, ht2, hc2⟩ := countHigh_capped env 200 fuel w1 0 (by omega) (by omega)
      (by rw [ht1]; exact hhigh)
    have hs : sampling env fuel = some (.failed w2) := by
      unfold sampling
      rw [hw0]
      have h40 : 40 = ps.length + ((39 - ps.length) + 1) := by omega
      simp only []
      rw [h40, heq, bitLoop_succ, hw1]
      simp only [hw2]
    refine ⟨w2, dht_read_data_failed env fuel t h w2 hs, by rw [ht2, ht1], fun e he => ?_⟩
    rw [hc2] at he
    have := hf1 e he
    omega
  · intro n hn hrun
    refine ⟨after (after (trainEnd ps (bitsStart l1 l2 l3)) l) n + 1, fun fuel hfuel => ?_⟩
    simp only [after] at hfuel
    obtain ⟨w0, w', w1, hw0, heq, hw1, ht1, hf1⟩ := common fuel (by simp only [after]; omega)
    obtain ⟨w2, hw2, ht2, _⟩ := countHigh_of_run env n fuel w1 0 (by omega) (by omega)
      (by rw [ht1]; exact hrun)
    have hb : bitLoop env (deadline env) fuel (ps.length + 1) 0 w0 [0, 0, 0, 0, 0] =
        some (.complete w2
          (if 0 + n > 45 then setBit (packFrom (ps.map Prod.snd) 0 [0, 0, 0, 0, 0]) (0 + ps.length)
           else packFrom (ps.map Prod.snd) 0 [0, 0, 0, 0, 0])) := by
      rw [heq 1, bitLoop_succ, hw1]
      simp only [hw2]
      rfl
    exact ⟨w0, w2, _, hw0, hb, by rw [ht2, ht1]⟩

/-- C6 on the scenario of the specification: correct handshake, ten bits, and
the line frozen high during bit 10. -/
theorem C6_per_bit_cap_witness :
    (pulsesOf [0x02, 0x80] 10).length < 40 ∧
    Answered frozenEnv 4 40 40 ∧
    PulseTrain frozenEnv (deadline frozenEnv) (pulsesOf [0x02, 0x80] 10) (bitsStart 4 40 40) ∧
    (∀ p, p ∈ pulsesOf [0x02, 0x80] 10 → p.2 ≤ 200) ∧
    Polls frozenEnv false (deadline frozenEnv)
      (trainEnd (pulsesOf [0x02, 0x80] 10) (bitsStart 4 40 40)) 47 ∧
    (∀ j, j ≤ 200 → frozenEnv.level
      (after (trainEnd (pulsesOf [0x02, 0x80] 10) (bitsStart 4 40 40)) 47 + 2 * j) = true) ∧
    ∃ F, ∀ fuel, F ≤ fuel → ∀ temperature humidity, ∃ w,
      dht_read_data frozenEnv fuel temperature humidity =
        some ⟨DHT_ERROR, temperature, humidity, w⟩ ∧
      w.tick = after (trainEnd (pulsesOf [0x02, 0x80] 10) (bitsStart 4 40 40)) 47 + 402 ∧
      ∀ e, e ∈ w.clockReads →
        e < after (trainEnd (pulsesOf [0x02, 0x80] 10) (bitsStart 4 40 40)) 47 := by
  have hk : (pulsesOf [0x02, 0x80] 10).length < 40 := by decide!
  have ha : Answered frozenEnv 4 40 40 := by decide!
  have ht : PulseTrain frozenEnv (deadline frozenEnv) (pulsesOf [0x02, 0x80] 10)
      (bitsStart 4 40 40) := by decide!
  have hcap : ∀ p, p ∈ pulsesOf [0x02, 0x80] 10 → p.2 ≤ 200 := by decide!
  have hl : Polls frozenEnv false (deadline frozenEnv)
      (trainEnd (pulsesOf [0x02, 0x80] 10) (bitsStart 4 40 40)) 47 := by decide!
  have hhigh : ∀ j, j ≤ 200 → frozenEnv.level
      (after (trainEnd (pulsesOf [0x02, 0x80] 10) (bitsStart 4 40 40)) 47 + 2 * j) = true := by
    decide!
  exact ⟨hk, ha, ht, hcap, hl, hhigh,
    (C6_per_bit_cap frozenEnv 4 40 40 _ 47 hk ha ht hcap hl).1 hhigh⟩

/-! ## Claims about the deadline -/

/-- With clock readings in the range of `int64_t`, the conversions to
`uint64_t` change nothing: the deadline is the first reading plus 300000. -/
theorem deadline_eq (env : Env) (hrange : ∀ k, env.clock k < 2 ^ 63) :
    deadline env = env.clock 0 + 300000 ∧ ∀ k, u64 (env.clock k) = env.clock k := by
  have h0 := hrange 0
  refine ⟨?_, fun k => ?_⟩
  · show (env.clock 0 + 300000) % 2 ^ 64 = _
    omega
  · have := hrange k
    show env.clock k % 2 ^ 64 = _
    omega

/-- Once the clock reads above `timeout` from event `N` on, a wait loop with
fuel for the events up to `N` returns. -/
theorem waitWhile_returns (env : Env) (lvl : Bool) (timeout N : Nat)
    (hlate : ∀ k, N ≤ k → timeout < u64 (env.clock k)) :
    ∀ (fuel : Nat) (w : World), N ≤ w.tick + 1 + 2 * fuel →
      ∃ r, waitWhile env lvl timeout (fuel + 1) w = some r := by
  intro fuel
  induction fuel with
  | zero =>
    intro w hN
    rw [waitWhile_succ]
    by_cases h0 : env.level w.tick = lvl
    · rw [if_pos h0, if_pos (hlate _ (by omega))]; exact ⟨_, rfl⟩
    · rw [if_neg h0]; exact ⟨_, rfl⟩
  | succ fuel ih =>
    intro w hN
    rw [waitWhile_succ]
    by_cases h0 : env.level w.tick = lvl
    · rw [if_pos h0]
      by_cases hc : u64 (env.clock (w.tick + 1)) > timeout
      · rw [if_pos hc]; exact ⟨_, rfl⟩
      · rw [if_neg hc]
        exact ih w.pass.readClock (by simp; omega)
    · rw [if_neg h0]; exact ⟨_, rfl⟩

/-- A wait loop on a line that stays at the waited level never passes. -/
theorem waitWhile_stuck (env : Env) (lvl : Bool) (timeout : Nat) :
    ∀ (fuel : Nat) (w : World) (r : Wait), (∀ k, w.tick ≤ k → env.level k = lvl) →
      waitWhile env lvl timeout fuel w = some r → ∃ w', r = .expired w' := by
  intro fuel
  induction fuel with
  | zero => intro w r _ hr; simp [waitWhile] at hr
  | succ fuel ih =>
    intro w r hst hr
    rw [waitWhile_succ, if_pos (hst _ (Nat.le_refl _))] at hr
    by_cases hc : u64 (env.clock (w.tick + 1)) > timeout
    · rw [if_pos hc] at hr
      cases hr
      exact ⟨_, rfl⟩
    · rw [if_neg hc] at hr
      exact ih w.pass.readClock r (fun k hk => hst k (by simp at hk; omega)) hr

/-- A wait loop on a line that leaves the waited level after `l` samples
either returns the error or passes right after that sample. -/
theorem waitWhile_run (env : Env) (lvl : Bool) (timeout : Nat) :
    ∀ (fuel : Nat) (w : World) (l : Nat) (r : Wait), LineRun env lvl w.tick l →
      waitWhile env lvl timeout fuel w = some r →
      (∃ w', r = .expired w') ∨ ∃ w', r = .passed w' ∧ w'.tick = after w.tick l := by
  intro fuel
  induction fuel with
  | zero => intro w l r _ hr; simp [waitWhile] at hr
  | succ fuel ih =>
    intro w l r hrun hr
    rw [waitWhile_succ] at hr
    by_cases h0 : env.level w.tick = lvl
    · rw [if_pos h0] at hr
      by_cases hc : u64 (env.clock (w.tick + 1)) > timeout
      · rw [if_pos hc] at hr
        cases hr
        exact Or.inl ⟨_, rfl⟩
      · rw [if_neg hc] at hr
        obtain ⟨l, rfl⟩ : ∃ l', l = l' + 1 := by
          cases l with
          | zero =>
            have := hrun.2
            simp only [Nat.mul_zero, Nat.add_zero] at this
            rw [h0] at this
            cases lvl <;> simp at this
          | succ l' => exact ⟨l', rfl⟩
        have hrun' : LineRun env lvl w.pass.readClock.tick l := by
          refine ⟨fun j hj => ?_, ?_⟩
          · have := hrun.1 (j + 1) (by omega)
            simpa [show w.tick + 1 + 1 + 2 * j = w.tick + 2 * (j + 1) by ring] using this
          · have := hrun.2
            simpa [show w.tick + 1 + 1 + 2 * l = w.tick + 2 * (l + 1) by ring] using this
        rcases ih w.pass.readClock l r hrun' hr with h | ⟨w', hw', ht'⟩
        · exact Or.inl h
        · refine Or.inr ⟨w', hw', ?_⟩
          rw [ht']; simp [after]; ring
    · rw [if_neg h0] at hr
      cases hr
      refine Or.inr ⟨_, rfl, ?_⟩
      cases l with
      | zero => simp [after]
      | succ l' =>
        have := hrun.1 0 (by omega)
        simp only [Nat.mul_zero, Nat.add_zero] at this
        exact absurd this h0

/-- A handshake the sensor never completes ends in `return DHT_ERROR`, if it
ends. -/
theorem handshake_stalled (env : Env) (timeout fuel : Nat) (r : Wait)
    (hst : Stalled env) (hr : handshake env timeout fuel afterStart = some r) :
    ∃ w, r = .expired w := by
  unfold handshake at hr
  cases h1 : waitWhile env true timeout fuel afterStart with
  | none => simp [h1] at hr
  | some r1 =>
    cases r1 with
    | expired w1 =>
      simp only [h1, Option.some.injEq] at hr
      exact ⟨w1, hr.symm⟩
    | passed w1 =>
      simp only [h1] at hr
      rcases hst with h | ⟨l1, hrun1, h⟩ | ⟨l1, l2, hrun1, hrun2, h⟩
      · obtain ⟨w', hw'⟩ := waitWhile_stuck env true timeout fuel afterStart _
          (fun k hk => h k (by rw [afterStart_tick] at hk; exact hk)) h1
        cases hw'
      · rcases waitWhile_run env true timeout fuel afterStart l1 _
          (by rw [afterStart_tick]; exact hrun1) h1 with ⟨w', hw'⟩ | ⟨w', hw', ht'⟩
        · cases hw'
        · cases hw'
          rw [afterStart_tick] at ht'
          cases h2 : waitWhile env false timeout fuel w1 with
          | none => simp [h2] at hr
          | some r2 =>
            obtain ⟨w2, hw2⟩ := waitWhile_stuck env false timeout fuel w1 r2
              (fun k hk => h k (by rw [ht'] at hk; exact hk)) h2
            subst hw2
            simp only [h2, Option.some.injEq] at hr
            exact ⟨w2, hr.symm⟩
      · rcases waitWhile_run env true timeout fuel afterStart l1 _
          (by rw [afterStart_tick]; exact hrun1) h1 with ⟨w', hw'⟩ | ⟨w', hw', ht'⟩
        · cases hw'
        · cases hw'
          rw [afterStart_tick] at ht'
          cases h2 : waitWhile env false timeout fuel w1 with
          | none => simp [h2] at hr
          | some r2 =>
            rcases waitWhile_run env false timeout fuel w1 l2 r2
              (by rw [ht']; exact hrun2) h2 with ⟨w2, hw2⟩ | ⟨w2, hw2, ht2⟩
            · subst hw2
              simp only [h2, Option.some.injEq] at hr
              exact ⟨w2, hr.symm⟩
            · subst hw2
              simp only [h2] at hr
              exact waitWhile_stuck env true timeout fuel w2 r
                (fun k hk => h k (by rw [ht2, ht'] at hk; exact hk)) hr

/-- Once the clock reads above `timeout` from event `N` on, a handshake with
more fuel than `N` returns. -/
theorem handshake_returns (env : Env) (timeout N : Nat)
    (hlate : ∀ k, N ≤ k → timeout < u64 (env.clock k)) (fuel : Nat) (hfuel : N < fuel)
    (w : World) : ∃ r, handshake env timeout fuel w = some r := by
  obtain ⟨fuel, rfl⟩ : ∃ f, fuel = f + 1 := ⟨fuel - 1, by omega⟩
  unfold handshake
  obtain ⟨r1, h1⟩ := waitWhile_returns env true timeout N hlate fuel w (by omega)
  rw [h1]
  cases r1 with
  | expired w1 => exact ⟨_, rfl⟩
  | passed w1 =>
    obtain ⟨r2, h2⟩ := waitWhile_returns env false timeout N hlate fuel w1 (by omega)
    simp only [h2]
    cases r2 with
    | expired w2 => exact ⟨_, rfl⟩
    | passed w2 => exact waitWhile_returns env true timeout N hlate fuel w2 (by omega)

/-- C9: if the sensor never completes the handshake (`Stalled`) and the clock,
monotonic and within `int64_t`, at some event reads above the deadline, then
with enough fuel the call returns: it returns `DHT_ERROR` from one of the three
handshake waits, leaves the caller's variables alone, and its last event is a
deadline check that read above the deadline, the only such check it made. -/
theorem C9_handshake_timeout (env : Env) (hrange : ∀ k, env.clock k < 2 ^ 63)
    (hmono : ∀ i j, i ≤ j → env.clock i ≤ env.clock j)
    (hlate : ∃ N, env.clock 0 + 300000 < env.clock N) (hst : Stalled env) :
    ∃ F, ∀ fuel, F ≤ fuel → ∀ temperature humidity, ∃ w,
      handshake env (deadline env) fuel afterStart = some (.expired w) ∧
      dht_read_data env fuel temperature humidity =
        some ⟨DHT_ERROR, temperature, humidity, w⟩ ∧
      ∃ e, w.tick = e + 1 ∧ e ∈ w.clockReads ∧ env.clock 0 + 300000 < env.clock e ∧
        ∀ x, x ∈ w.clockReads → x ≠ 0 → x ≠ e → env.clock x ≤ env.clock 0 + 300000 := by
  obtain ⟨N, hN⟩ := hlate
  obtain ⟨hd, hu⟩ := deadline_eq env hrange
  have hlate' : ∀ k, N ≤ k → deadline env < u64 (env.clock k) := by
    intro k hk
    rw [hd, hu]
    have := hmono N k hk
    omega
  refine ⟨N + 1, fun fuel hfuel t h => ?_⟩
  obtain ⟨r, hr⟩ := handshake_returns env (deadline env) N hlate' fuel (by omega) afterStart
  obtain ⟨w, rfl⟩ := handshake_stalled env (deadline env) fuel r hst hr
  have hlog := handshake_log env (deadline env) fuel afterStart _ hr afterStart_fresh
    (afterStart_checked env _)
  obtain ⟨rs, e, hreads, htick, hgt, hrs⟩ := hlog.2.1
  have hs : sampling env fuel = some (.failed w) := by
    unfold sampling; rw [hr]
  refine ⟨w, hr, dht_read_data_failed env fuel t h w hs, e, htick, ?_, ?_, fun x hx hx0 hxe => ?_⟩
  · rw [hreads]; simp
  · rw [hd, hu] at hgt; exact hgt
  · rw [hreads] at hx
    rcases List.mem_append.mp hx with hx | hx
    · have := hrs x hx hx0
      rw [hd, hu] at this
      exact this
    · simp at hx
      exact absurd hx hxe

/-- C9 on a line with no sensor (it stays high) and a clock that passes the
deadline at event 7. -/
theorem C9_handshake_timeout_witness :
    (∀ k, stuckEnv.clock k < 2 ^ 63) ∧
    (∀ i j, i ≤ j → stuckEnv.clock i ≤ stuckEnv.clock j) ∧
    (∃ N, stuckEnv.clock 0 + 300000 < stuckEnv.clock N) ∧
    Stalled stuckEnv ∧
    ∃ F, ∀ fuel, F ≤ fuel → ∀ temperature humidity, ∃ w,
      handshake stuckEnv (deadline stuckEnv) fuel afterStart = some (.expired w) ∧
      dht_read_data stuckEnv fuel temperature humidity =
        some ⟨DHT_ERROR, temperature, humidity, w⟩ ∧
      ∃ e, w.tick = e + 1 ∧ e ∈ w.clockReads ∧
        stuckEnv.clock 0 + 300000 < stuckEnv.clock e ∧
        ∀ x, x ∈ w.clockReads → x ≠ 0 → x ≠ e →
          stuckEnv.clock x ≤ stuckEnv.clock 0 + 300000 := by
  have hrange : ∀ k, stuckEnv.clock k < 2 ^ 63 := by
    intro k; simp only [stuckEnv]; split <;> omega
  have hmono : ∀ i j, i ≤ j → stuckEnv.clock i ≤ stuckEnv.clock j := by
    intro i j hij; simp only [stuckEnv]; split <;> split <;> omega
  have hlate : ∃ N, stuckEnv.clock 0 + 300000 < stuckEnv.clock N := ⟨7, by decide⟩
  have hst : Stalled stuckEnv := Or.inl fun _ _ => rfl
  exact ⟨hrange, hmono, hlate, hst, C9_handshake_timeout stuckEnv hrange hmono hlate hst⟩

/-- C5 as stated fails: a stalled handshake wait (no sensor), the per-bit cap
(line held high in bit 0) and a checksum mismatch (the specification's frame
with one bit flipped) all make the call return the same value, `DHT_ERROR`. -/
theorem C5_counterexample :
    handshake stuckEnv (deadline stuckEnv) 10 afterStart = some (.expired ⟨9, [0, 8]⟩) ∧
    returned stuckEnv 10 (.held 0) (.held 1) = some DHT_ERROR ∧
    sampling jammedEnv 300 = some (.failed ⟨413, [0]⟩) ∧
    returned jammedEnv 300 (.held 0) (.held 1) = some DHT_ERROR ∧
    sampledBuffer flippedEnv 100 = some [0x02, 0x8D, 0x00, 0xEC, 0x7C] ∧
    0x7C ≠ (0x02 + 0x8D + 0x00 + 0xEC) % 256 ∧
    returned flippedEnv 100 (.held 0) (.held 1) = some DHT_ERROR ∧
    returned stuckEnv 10 (.held 0) (.held 1) = returned flippedEnv 100 (.held 0) (.held 1) := by
  have h1 : handshake stuckEnv (deadline stuckEnv) 10 afterStart =
      some (.expired ⟨9, [0, 8]⟩) := by decide!
  have h2 : returned stuckEnv 10 (.held 0) (.held 1) = some DHT_ERROR := by decide!
  have h3 : sampling jammedEnv 300 = some (.failed ⟨413, [0]⟩) := by decide!
  have h4 : returned jammedEnv 300 (.held 0) (.held 1) = some DHT_ERROR := by decide!
  have h5 : sampledBuffer flippedEnv 100 = some [0x02, 0x8D, 0x00, 0xEC, 0x7C] := by decide!
  have h6 : returned flippedEnv 100 (.held 0) (.held 1) = some DHT_ERROR := by decide!
  exact ⟨h1, h2, h3, h4, h5, by decide, h6, h2.trans h6.symm⟩

/-- C5, amended: the call has one error value.  Every call that returns returns
`DHT_OK` or `DHT_ERROR`, the two differ, and every failure returns `DHT_ERROR`:
a failure before the checksum test (a stalled wait or the per-bit cap) as well
as a checksum mismatch.  The return value tells failure from success, not one
failure from another. -/
theorem C5_single_error_value (env : Env) (fuel : Nat) (temperature humidity : F32)
    (r : Outcome) (hr : dht_read_data env fuel temperature humidity = some r) :
    (r.ret = DHT_OK ∨ r.ret = DHT_ERROR) ∧ DHT_ERROR ≠ DHT_OK ∧
    (∀ w, sampling env fuel = some (.failed w) → r.ret = DHT_ERROR) ∧
    (∀ w b0 b1 b2 b3 b4, sampling env fuel = some (.complete w [b0, b1, b2, b3, b4]) →
      b4 ≠ (b0 + b1 + b2 + b3) % 256 → r.ret = DHT_ERROR) := by
  refine ⟨?_, by decide, fun w hs => ?_, fun w b0 b1 b2 b3 b4 hs hne => ?_⟩
  · by_cases h : r.ret = DHT_OK
    · exact Or.inl h
    · exact Or.inr (dht_read_data_error env fuel _ _ r hr h).1
  · rw [dht_read_data_failed env fuel _ _ w hs] at hr
    cases hr; rfl
  · have hb := sampled_bytes env fuel w _ _ _ _ _ hs
    rw [dht_read_data_complete env fuel _ _ w _ hs,
      checkAndDecode_mismatch _ _ _ _ _ _ _ _ (by omega)] at hr
    cases hr; rfl

/-- C5, amended, on a line with no sensor. -/
theorem C5_single_error_value_witness :
    dht_read_data stuckEnv 10 (.held 0) (.held 1) =
      some ⟨DHT_ERROR, .held 0, .held 1, ⟨9, [0, 8]⟩⟩ ∧
    (DHT_ERROR = DHT_OK ∨ DHT_ERROR = DHT_ERROR) ∧ DHT_ERROR ≠ DHT_OK ∧
    (∀ w, sampling stuckEnv 10 = some (.failed w) → DHT_ERROR = DHT_ERROR) ∧
    (∀ w b0 b1 b2 b3 b4, sampling stuckEnv 10 = some (.complete w [b0, b1, b2, b3, b4]) →
      b4 ≠ (b0 + b1 + b2 + b3) % 256 → DHT_ERROR = DHT_ERROR) := by
  have hr : dht_read_data stuckEnv 10 (.held 0) (.held 1) =
      some ⟨DHT_ERROR, .held 0, .held 1, ⟨9, [0, 8]⟩⟩ := by decide!
  exact ⟨hr, C5_single_error_value stuckEnv 10 (.held 0) (.held 1) _ hr⟩

end DHT
